import Mathlib

/-!
Shallow embedding of the wal-analyzer core (WAL replay engine, B-tree
codec, duplicate validators), together with theorems settling the
specification's claims against the code.

Bytes are modelled as `Nat` values below 256; machine integers are `Nat`
(or `Int` for signed results) with an explicit `% 2 ^ w` wherever the Rust
code performs wrapping arithmetic.  Fallible Rust functions returning
`Result` are modelled with `Except Err`; file reads are modelled by passing
the file contents as a `List Nat` and the base-file page reader as an
oracle function.
-/

namespace WalAnalyzer

deriving instance DecidableEq for Except

/-- The error enum `WalValidatorError` (the variants the core exercises). -/
inductive Err where
  | unexpectedEof
  | invalidWalMagic (magic : Nat)
  | checksumMismatch (frame_index : Nat)
  | invalidPageType (byte : Nat) (page_num : Nat)
  | cellPointerOutOfBounds (page_num : Nat)
  | pageNotFound (page_num : Nat)
  deriving DecidableEq

/-- `byteorder::BigEndian::read_u16` of the two bytes at `off`. -/
def readU16BE (data : List Nat) (off : Nat) : Nat :=
  data.getD off 0 * 2 ^ 8 + data.getD (off + 1) 0

/-- `byteorder::BigEndian::read_u32` of the four bytes at `off`. -/
def readU32BE (data : List Nat) (off : Nat) : Nat :=
  data.getD off 0 * 2 ^ 24 + data.getD (off + 1) 0 * 2 ^ 16 +
    data.getD (off + 2) 0 * 2 ^ 8 + data.getD (off + 3) 0

/-- `byteorder::LittleEndian::read_u32` of the four bytes at `off`. -/
def readU32LE (data : List Nat) (off : Nat) : Nat :=
  data.getD (off + 3) 0 * 2 ^ 24 + data.getD (off + 2) 0 * 2 ^ 16 +
    data.getD (off + 1) 0 * 2 ^ 8 + data.getD off 0

/-- `byteorder::BigEndian::read_u64`-style read of eight bytes at `off`. -/
def readU64BE (data : List Nat) (off : Nat) : Nat :=
  data.getD off 0 * 2 ^ 56 + data.getD (off + 1) 0 * 2 ^ 48 +
    data.getD (off + 2) 0 * 2 ^ 40 + data.getD (off + 3) 0 * 2 ^ 32 +
    data.getD (off + 4) 0 * 2 ^ 24 + data.getD (off + 5) 0 * 2 ^ 16 +
    data.getD (off + 6) 0 * 2 ^ 8 + data.getD (off + 7) 0

/-- Two's-complement reinterpretation of a `w`-bit unsigned value as a
signed integer (the meaning of Rust's `as i8`, `read_i16`, ... casts). -/
def sgnExt (w v : Nat) : Int :=
  if v < 2 ^ (w - 1) then (v : Int) else (v : Int) - 2 ^ w

/-! ### Varint codec (`src/btree/cell.rs::parse_varint`) -/

/-- Loop body of `parse_varint`: `i` counts bytes already consumed and
`value` is the `u64` accumulator (wrapping arithmetic is `% 2 ^ 64`;
in fact no wrap can occur, see `pvGo_eq_specVarint`).  The Rust loop runs
over `data.iter().take(9)`; the clause for `i = 8` makes the 9th byte
terminal, so bytes beyond the 9th are never inspected. -/
def pvGo : List Nat → Nat → Nat → Nat × Nat
  | [], i, value => (value, i)
  | b :: rest, i, value =>
    if i = 8 then (((value <<< 8) ||| b) % 2 ^ 64, 9)
    else
      let v := ((value <<< 7) ||| (b &&& 0x7F)) % 2 ^ 64
      if b &&& 0x80 = 0 then (v, i + 1)
      else pvGo rest (i + 1) v

/-- `parse_varint`: fails with `UnexpectedEof` on empty input, otherwise
runs the accumulator loop from `(i, value) = (0, 0)`. -/
def parse_varint (data : List Nat) : Except Err (Nat × Nat) :=
  if data.isEmpty then .error .unexpectedEof
  else .ok (pvGo data 0 0)

/-- The specification's description of varint decoding, written from the
spec's words: bytes `1..8` each contribute their low 7 bits (the
accumulator is shifted left by 7) and decoding stops at the first byte
with the high bit clear; the ninth byte contributes all 8 bits and
terminates unconditionally.  Returns the value and the count of bytes
consumed starting from position `i`. -/
def specVarint : List Nat → Nat → Nat → Nat × Nat
  | [], _, acc => (acc, 0)
  | b :: rest, i, acc =>
    if i = 8 then (acc * 2 ^ 8 + b, 1)
    else if b < 128 then (acc * 2 ^ 7 + b, 1)
    else
      let r := specVarint rest (i + 1) (acc * 2 ^ 7 + (b - 128))
      (r.1, r.2 + 1)

/-! ### Record header codec (`src/btree/cell.rs`) -/

/-- The serial-type loop of `parse_record_header`: starting at cursor
`offset`, decode varints until the cursor reaches `header_size`.  The
cursor advances by at least one byte per step, so the fuel
`header_size` passed by `parse_record_header` can never run out. -/
def rhGo (data : List Nat) (header_size : Nat) : Nat → Nat → Except Err (List Nat)
  | _, 0 => .ok []
  | offset, fuel + 1 =>
    if offset < header_size then
      match parse_varint (data.drop offset) with
      | .error e => .error e
      | .ok (st, len) =>
        match rhGo data header_size (offset + len) fuel with
        | .error e => .error e
        | .ok sts => .ok (st :: sts)
    else .ok []

/-- `parse_record_header`: read the header-length varint `H` (which counts
its own bytes), check `H` fits in the data, then decode serial types up to
cursor `H`.  Returns `(serial_types, H)`. -/
def parse_record_header (data : List Nat) : Except Err (List Nat × Nat) :=
  if data.isEmpty then .error .unexpectedEof
  else
    match parse_varint data with
    | .error e => .error e
    | .ok (header_size, first_varint_len) =>
      if data.length < header_size then .error .unexpectedEof
      else
        match rhGo data header_size first_varint_len header_size with
        | .error e => .error e
        | .ok serial_types => .ok (serial_types, header_size)

/-- `serial_type_size` from `src/btree/cell.rs` (note: type 7, a float,
has size 8; types 10 and 11 are reserved with size 0). -/
def serial_type_size (st : Nat) : Nat :=
  if st = 0 then 0
  else if st = 1 then 1
  else if st = 2 then 2
  else if st = 3 then 3
  else if st = 4 then 4
  else if st = 5 then 6
  else if st = 6 then 8
  else if st = 7 then 8
  else if st = 8 then 0
  else if st = 9 then 0
  else if st = 10 ∨ st = 11 then 0
  else if 12 ≤ st ∧ st % 2 = 0 then (st - 12) / 2
  else if 13 ≤ st ∧ st % 2 = 1 then (st - 13) / 2
  else 0

/-- An index key: the raw bytes compared bitwise for equality. -/
structure IndexKey where
  raw : List Nat
  deriving DecidableEq

/-- `extract_index_key`: slice the record header plus the data bytes of
the key columns out of an index-cell payload.  `key_columns` is all serial
types except the last when there are at least two, and all of them
otherwise (the Rust `if serial_types.len() > 1` branch). -/
def extract_index_key (payload : List Nat) : Except Err IndexKey :=
  match parse_record_header payload with
  | .error e => .error e
  | .ok (serial_types, header_size) =>
    if serial_types.isEmpty then .ok ⟨[]⟩
    else
      let key_columns :=
        if 1 < serial_types.length then serial_types.dropLast else serial_types
      let key_size := (key_columns.map serial_type_size).sum
      let key_end := header_size + key_size
      if payload.length < key_end then .error .unexpectedEof
      else .ok ⟨payload.take key_end⟩

/-! ### Integer column decoding (`src/btree/scanner.rs::read_int_column`) -/

/-- `BTreeScanner::read_int_column`, translated clause by clause.  Serial
type 3 is the Rust expression
`((b[0] as i32) << 16 | (b[1] as i32) << 8 | b[2] as i32) as i64`:
the `u8 → i32` casts zero-extend, so the result is the plain big-endian
value with no sign extension.  Serial type 5 copies the six payload bytes
into `buf[2..8]` of a zeroed 8-byte buffer and computes
`i64::from_be_bytes(buf) >> 16`; the value is non-negative, so the
arithmetic shift is division by `2 ^ 16`, which discards the two
low-order payload bytes. -/
def read_int_column (payload serial_types offsets : List Nat) (col : Nat) : Option Int :=
  if serial_types.length ≤ col then none
  else
    let st := serial_types.getD col 0
    let offset := offsets.getD col 0
    if st = 0 then none
    else if st = 1 then
      if payload.length ≤ offset then none
      else some (sgnExt 8 (payload.getD offset 0))
    else if st = 2 then
      if payload.length < offset + 2 then none
      else some (sgnExt 16 (readU16BE payload offset))
    else if st = 3 then
      if payload.length < offset + 3 then none
      else some (Int.ofNat
        ((payload.getD offset 0 <<< 16) ||| (payload.getD (offset + 1) 0 <<< 8) |||
          payload.getD (offset + 2) 0))
    else if st = 4 then
      if payload.length < offset + 4 then none
      else some (sgnExt 32 (readU32BE payload offset))
    else if st = 5 then
      if payload.length < offset + 6 then none
      else
        let v := payload.getD offset 0 * 2 ^ 40 + payload.getD (offset + 1) 0 * 2 ^ 32 +
          payload.getD (offset + 2) 0 * 2 ^ 24 + payload.getD (offset + 3) 0 * 2 ^ 16 +
          payload.getD (offset + 4) 0 * 2 ^ 8 + payload.getD (offset + 5) 0
        some (Int.ofNat (v >>> 16))
    else if st = 6 then
      if payload.length < offset + 8 then none
      else some (sgnExt 64 (readU64BE payload offset))
    else if st = 8 then some 0
    else if st = 9 then some 1
    else none

/-- The claim's semantics for integer serial types, written from the
spec's words: widths 1, 2, 3, 4, 6, 8 are read big-endian and
sign-extended (i8/i16/i24/i32/i48/i64), and the constants 8 and 9 decode
to 0 and 1 from zero data bytes.  `bytes` is the column's data slice. -/
def signExtendedValue (st : Nat) (bytes : List Nat) : Option Int :=
  let beVal := bytes.foldl (fun acc b => acc * 2 ^ 8 + b) 0
  if st = 1 then some (sgnExt 8 beVal)
  else if st = 2 then some (sgnExt 16 beVal)
  else if st = 3 then some (sgnExt 24 beVal)
  else if st = 4 then some (sgnExt 32 beVal)
  else if st = 5 then some (sgnExt 48 beVal)
  else if st = 6 then some (sgnExt 64 beVal)
  else if st = 8 then some 0
  else if st = 9 then some 1
  else none

/-! ### WAL header, frames and checksum (`src/wal/header.rs`, `frame.rs`) -/

/-- WAL magic word selecting big-endian checksum chunking. -/
def WAL_MAGIC_BE : Nat := 0x377f0682

/-- WAL magic word selecting little-endian checksum chunking. -/
def WAL_MAGIC_LE : Nat := 0x377f0683

/-- The parsed 32-byte WAL header. -/
structure WalHeader where
  magic : Nat
  format_version : Nat
  page_size : Nat
  checkpoint_seq : Nat
  salt1 : Nat
  salt2 : Nat
  checksum1 : Nat
  checksum2 : Nat
  big_endian_checksums : Bool
  deriving DecidableEq

/-- `WalHeader::parse`: requires at least 32 bytes and a known magic word;
all fields are read big-endian regardless of the checksum endianness. -/
def WalHeader.parse (data : List Nat) : Except Err WalHeader :=
  if data.length < 32 then .error .unexpectedEof
  else
    let magic := readU32BE data 0
    if magic = WAL_MAGIC_BE ∨ magic = WAL_MAGIC_LE then
      .ok ⟨magic, readU32BE data 4, readU32BE data 8, readU32BE data 12,
        readU32BE data 16, readU32BE data 20, readU32BE data 24, readU32BE data 28,
        magic == WAL_MAGIC_BE⟩
    else .error (.invalidWalMagic magic)

/-- The rolling checksum loop of `WalHeader::checksum`: fold over full
8-byte chunks (a trailing chunk shorter than 8 bytes is ignored), reading
each chunk as two 32-bit words in the chosen endianness and updating
`s0 ← s0 + v0 + s1`, `s1 ← s1 + v1 + s0` in wrapping 32-bit arithmetic. -/
def walChecksum (be : Bool) : Nat × Nat → List Nat → Nat × Nat
  | s, b0 :: b1 :: b2 :: b3 :: b4 :: b5 :: b6 :: b7 :: rest =>
    let v0 := if be then readU32BE [b0, b1, b2, b3] 0 else readU32LE [b0, b1, b2, b3] 0
    let v1 := if be then readU32BE [b4, b5, b6, b7] 0 else readU32LE [b4, b5, b6, b7] 0
    let s0 := (s.1 + v0 + s.2) % 2 ^ 32
    let s1 := (s.2 + v1 + s0) % 2 ^ 32
    walChecksum be (s0, s1) rest
  | s, _ => s

/-- `WalHeader::checksum` as a method: chunk endianness comes from the
header's magic word. -/
def WalHeader.checksum (h : WalHeader) (data : List Nat) (initial : Nat × Nat) : Nat × Nat :=
  walChecksum h.big_endian_checksums initial data

/-- The parsed 24-byte WAL frame header. -/
structure FrameHeader where
  page_number : Nat
  db_size_after_commit : Nat
  salt1 : Nat
  salt2 : Nat
  checksum1 : Nat
  checksum2 : Nat
  deriving DecidableEq

/-- `FrameHeader::parse`: six big-endian `u32` fields. -/
def FrameHeader.parse (data : List Nat) : Except Err FrameHeader :=
  if data.length < 24 then .error .unexpectedEof
  else .ok ⟨readU32BE data 0, readU32BE data 4, readU32BE data 8,
    readU32BE data 12, readU32BE data 16, readU32BE data 20⟩

/-- `FrameHeader::is_commit`: a non-zero post-commit size marks a commit. -/
def FrameHeader.is_commit (h : FrameHeader) : Bool :=
  h.db_size_after_commit != 0

/-- A complete WAL frame. -/
structure Frame where
  header : FrameHeader
  page_data : List Nat
  frame_index : Nat
  deriving DecidableEq

/-- A commit: one or more frames ending in a commit-marked frame. -/
structure Commit where
  index : Nat
  frames : List Frame
  db_size : Nat
  deriving DecidableEq

/-! ### Commit iterator (`src/wal/iterator.rs`) -/

/-- The WAL file as seen by `CommitIterator`: the parsed header plus the
raw file contents (`bytes` includes the 32-byte header region). -/
structure WalFile where
  header : WalHeader
  bytes : List Nat
  deriving DecidableEq

/-- The mutable state of `CommitIterator`. -/
structure IterState where
  current_frame_index : Nat
  current_commit_index : Nat
  pending_frames : List Frame
  current_checksum : Nat × Nat
  finished : Bool
  deriving DecidableEq

/-- `CommitIterator::read_frame`.  A read past end-of-file (fewer than 24
header bytes or fewer than `page_size` data bytes at the frame's offset)
yields `ok none`, as does a salt mismatch; a checksum mismatch is the
error `ChecksumMismatch { frame_index }`.  On success the returned state
carries the committed running checksum and the incremented frame index. -/
def readFrame (wal : WalFile) (s : IterState) : Except Err (Option (Frame × IterState)) :=
  let frame_size := 24 + wal.header.page_size
  let offset := 32 + s.current_frame_index * frame_size
  if wal.bytes.length < offset + 24 then .ok none
  else
    let header_bytes := (wal.bytes.drop offset).take 24
    match FrameHeader.parse header_bytes with
    | .error e => .error e
    | .ok fh =>
      if fh.salt1 ≠ wal.header.salt1 ∨ fh.salt2 ≠ wal.header.salt2 then .ok none
      else if wal.bytes.length < offset + 24 + wal.header.page_size then .ok none
      else
        let page_data := (wal.bytes.drop (offset + 24)).take wal.header.page_size
        let cks0 := wal.header.checksum (header_bytes.take 8) s.current_checksum
        let cks := wal.header.checksum page_data cks0
        if cks.1 ≠ fh.checksum1 ∨ cks.2 ≠ fh.checksum2 then
          .error (.checksumMismatch s.current_frame_index)
        else
          .ok (some (⟨fh, page_data, s.current_frame_index⟩,
            { s with
              current_checksum := cks,
              current_frame_index := s.current_frame_index + 1 }))

/-- The `loop` inside `CommitIterator::next`, with fuel.  Each iteration
advances the frame index, and a frame occupies at least 24 bytes of the
file, so the fuel `wal.bytes.length + 1` supplied by `nextCommit` can
never run out (`nextLoop_finishes`). -/
def nextLoop (wal : WalFile) : Nat → IterState → Option (Except Err Commit) × IterState
  | 0, s => (none, s)
  | fuel + 1, s =>
    match readFrame wal s with
    | .error e => (some (.error e), { s with finished := true })
    | .ok none => (none, { s with finished := true })
    | .ok (some (f, s1)) =>
      let is_commit := f.header.is_commit
      let db_size := f.header.db_size_after_commit
      let s2 := { s1 with pending_frames := s1.pending_frames ++ [f] }
      if is_commit then
        (some (.ok ⟨s2.current_commit_index, s2.pending_frames, db_size⟩),
          { s2 with
            pending_frames := [],
            current_commit_index := s2.current_commit_index + 1 })
      else nextLoop wal fuel s2

/-- `CommitIterator::next`: `None` immediately once `finished` is set,
otherwise run the frame-reading loop. -/
def nextCommit (wal : WalFile) (s : IterState) : Option (Except Err Commit) × IterState :=
  if s.finished then (none, s) else nextLoop wal (wal.bytes.length + 1) s

/-- `CommitIterator::new`: parse the WAL header from the first 32 bytes
and seed the running checksum from bytes `[0, 24)` with seed `(0, 0)`. -/
def newCommitIterator (bytes : List Nat) : Except Err (WalFile × IterState) :=
  if bytes.length < 32 then .error .unexpectedEof
  else
    match WalHeader.parse (bytes.take 32) with
    | .error e => .error e
    | .ok h =>
      let initial := h.checksum ((bytes.take 32).take 24) (0, 0)
      .ok (⟨h, bytes⟩, ⟨0, 0, [], initial, false⟩)

/-! ### Page cache / overlay (`src/validator/page_cache.rs`) -/

/-- `PageCache`: the WAL overlay maps a page number to the page bytes and
the index of the frame that last wrote it; `page_reader` is the base-file
reader oracle (`PageReader::read_page`). -/
structure PageCache where
  page_size : Nat
  db_page_count : Nat
  overlay : Nat → Option (List Nat × Nat)
  page_reader : Nat → Except Err (List Nat)

/-- `PageCache::new`: empty overlay. -/
def PageCache.new (page_size db_page_count : Nat)
    (page_reader : Nat → Except Err (List Nat)) : PageCache :=
  ⟨page_size, db_page_count, fun _ => none, page_reader⟩

/-- `PageCache::get_page`: overlay first, then the base file, substituting
a zeroed page when the base read reports `PageNotFound`. -/
def PageCache.get_page (pc : PageCache) (page_num : Nat) : Except Err (List Nat) :=
  match pc.overlay page_num with
  | some (page, _) => .ok page
  | none =>
    match pc.page_reader page_num with
    | .ok page => .ok page
    | .error (.pageNotFound _) => .ok (List.replicate pc.page_size 0)
    | .error e => .error e

/-- `PageCache::get_frame_index`. -/
def PageCache.get_frame_index (pc : PageCache) (page_num : Nat) : Option Nat :=
  (pc.overlay page_num).map (fun x => x.2)

/-- One `overlay.insert` step of `PageCache::apply_commit`. -/
def applyFrame (pc : PageCache) (f : Frame) : PageCache :=
  { pc with
    overlay := fun q =>
      if q = f.header.page_number then some (f.page_data, f.frame_index)
      else pc.overlay q }

/-- `PageCache::apply_commit`: insert every frame of the commit, in
order. -/
def PageCache.apply_commit (pc : PageCache) (c : Commit) : PageCache :=
  c.frames.foldl applyFrame pc

/-- All frames of a commit sequence, in application order. -/
def allFrames (cs : List Commit) : List Frame :=
  (cs.map Commit.frames).flatten

/-- The last frame in `fs` whose page number is `p` (the overlay entry
left by inserting the frames of `fs` in order). -/
def lastMatch : List Frame → Nat → Option Frame
  | [], _ => none
  | f :: rest, p =>
    match lastMatch rest p with
    | some g => some g
    | none => if f.header.page_number = p then some f else none

/-! ### B-tree page header and cell pointers (`src/btree/page.rs`) -/

/-- The four B-tree page types. -/
inductive BTreePageType where
  | tableInterior
  | tableLeaf
  | indexInterior
  | indexLeaf
  deriving DecidableEq

/-- `BTreePageType::from_byte`. -/
def BTreePageType.from_byte (b : Nat) : Option BTreePageType :=
  if b = 0x02 then some .indexInterior
  else if b = 0x05 then some .tableInterior
  else if b = 0x0A then some .indexLeaf
  else if b = 0x0D then some .tableLeaf
  else none

/-- `BTreePageType::is_interior`. -/
def BTreePageType.is_interior : BTreePageType → Bool
  | .tableInterior => true
  | .indexInterior => true
  | _ => false

/-- The parsed B-tree page header. -/
structure BTreePageHeader where
  page_type : BTreePageType
  first_freeblock : Nat
  cell_count : Nat
  cell_content_offset : Nat
  fragmented_bytes : Nat
  right_child : Option Nat
  deriving DecidableEq

/-- `BTreePageHeader::parse`: page 1 carries a 100-byte database-header
prefix; interior pages have a 12-byte header ending in the right-child
pointer, leaves an 8-byte header.  Returns the header and its size
(including the page-1 offset). -/
def BTreePageHeader.parse (data : List Nat) (page_num : Nat) :
    Except Err (BTreePageHeader × Nat) :=
  let offset := if page_num = 1 then 100 else 0
  if data.length < offset + 8 then .error .unexpectedEof
  else
    let page_type_byte := data.getD offset 0
    match BTreePageType.from_byte page_type_byte with
    | none => .error (.invalidPageType page_type_byte page_num)
    | some page_type =>
      let first_freeblock := readU16BE data (offset + 1)
      let cell_count := readU16BE data (offset + 3)
      let cell_content_offset := readU16BE data (offset + 5)
      let fragmented_bytes := data.getD (offset + 7) 0
      if page_type.is_interior then
        if data.length < offset + 12 then .error .unexpectedEof
        else
          .ok (⟨page_type, first_freeblock, cell_count, cell_content_offset,
            fragmented_bytes, some (readU32BE data (offset + 8))⟩, offset + 12)
      else
        .ok (⟨page_type, first_freeblock, cell_count, cell_content_offset,
          fragmented_bytes, none⟩, offset + 8)

/-- The loop of `get_cell_pointers`: read `remaining` 16-bit pointers
starting at array index `i`; a pointer slot past the end of the page is
`CellPointerOutOfBounds`. -/
def gcpLoop (data : List Nat) (pointers_start page_num : Nat) :
    Nat → Nat → Except Err (List Nat)
  | _, 0 => .ok []
  | i, remaining + 1 =>
    let ptr_offset := pointers_start + i * 2
    if data.length < ptr_offset + 2 then .error (.cellPointerOutOfBounds page_num)
    else
      match gcpLoop data pointers_start page_num (i + 1) remaining with
      | .error e => .error e
      | .ok ps => .ok (readU16BE data ptr_offset :: ps)

/-- `BTreePageHeader::get_cell_pointers`. -/
def BTreePageHeader.get_cell_pointers (h : BTreePageHeader) (data : List Nat)
    (page_num : Nat) : Except Err (List Nat) :=
  let header_offset := if page_num = 1 then 100 else 0
  let header_size := if h.page_type.is_interior then 12 else 8
  gcpLoop data (header_offset + header_size) page_num 0 h.cell_count

/-! ### B-tree scanner per-page cell loops (`src/btree/scanner.rs`) -/

/-- Where a rowid or key was found. -/
structure RowidLocation where
  page_number : Nat
  cell_index : Nat
  frame_index : Option Nat
  deriving DecidableEq

/-- Rust `u64 as i64` (two's-complement reinterpretation). -/
def u64AsI64 (v : Nat) : Int :=
  sgnExt 64 v

/-- The table-leaf cell loop of `collect_table_rowids`: a cell pointer at
or past the end of the page is skipped (`continue`); otherwise the
payload-length varint is skipped and the rowid varint is read, either
varint error propagating via `?`.  `idx` is the `enumerate` counter. -/
def tableLeafCells (page_data : List Nat) (page_num : Nat) (frame_index : Option Nat) :
    List Nat → Nat → Except Err (List (Int × RowidLocation))
  | [], _ => .ok []
  | ptr :: rest, idx =>
    if page_data.length ≤ ptr then tableLeafCells page_data page_num frame_index rest (idx + 1)
    else
      let cell_data := page_data.drop ptr
      match parse_varint cell_data with
      | .error e => .error e
      | .ok (_, payload_len) =>
        match parse_varint (cell_data.drop payload_len) with
        | .error e => .error e
        | .ok (rowid, _) =>
          match tableLeafCells page_data page_num frame_index rest (idx + 1) with
          | .error e => .error e
          | .ok rs => .ok ((u64AsI64 rowid, ⟨page_num, idx, frame_index⟩) :: rs)

/-- The interior-page cell loop shared by `collect_table_rowids` and
`collect_index_keys`/`collect_index_rowids`: each in-bounds cell
contributes its 4-byte left-child pointer; a cell whose first four bytes
do not fit in the page is skipped.  Returns the children pushed. -/
def interiorChildren (page_data : List Nat) : List Nat → List Nat
  | [] => []
  | ptr :: rest =>
    if page_data.length < ptr + 4 then interiorChildren page_data rest
    else readU32BE page_data ptr :: interiorChildren page_data rest

/-- The index-leaf cell loop of `collect_index_keys`: out-of-bounds cell
pointers and overflowing payloads are skipped, and a failing
`extract_index_key` is skipped via `if let Ok`. -/
def indexLeafCells (page_data : List Nat) (page_num : Nat) (frame_index : Option Nat) :
    List Nat → Nat → Except Err (List (IndexKey × RowidLocation))
  | [], _ => .ok []
  | ptr :: rest, idx =>
    if page_data.length ≤ ptr then indexLeafCells page_data page_num frame_index rest (idx + 1)
    else
      let cell_data := page_data.drop ptr
      match parse_varint cell_data with
      | .error e => .error e
      | .ok (payload_size, payload_len) =>
        if cell_data.length < payload_len + payload_size then
          indexLeafCells page_data page_num frame_index rest (idx + 1)
        else
          let payload := (cell_data.drop payload_len).take payload_size
          match extract_index_key payload with
          | .error _ => indexLeafCells page_data page_num frame_index rest (idx + 1)
          | .ok key =>
            match indexLeafCells page_data page_num frame_index rest (idx + 1) with
            | .error e => .error e
            | .ok ks => .ok ((key, ⟨page_num, idx, frame_index⟩) :: ks)

/-- One iteration of the `while let Some(page_num) = stack.pop()` loop of
`collect_table_rowids`: parse the page header and cell pointers, then
either collect the leaf rowids or compute the child pages pushed for an
interior page (left children in cell order, then the right child).  Any
other page type contributes nothing. -/
def tableScanStep (page_data : List Nat) (page_num : Nat) (frame_index : Option Nat) :
    Except Err (List (Int × RowidLocation) × List Nat) :=
  match BTreePageHeader.parse page_data page_num with
  | .error e => .error e
  | .ok (header, _) =>
    match header.page_type with
    | .tableLeaf =>
      match header.get_cell_pointers page_data page_num with
      | .error e => .error e
      | .ok ptrs =>
        match tableLeafCells page_data page_num frame_index ptrs 0 with
        | .error e => .error e
        | .ok rs => .ok (rs, [])
    | .tableInterior =>
      match header.get_cell_pointers page_data page_num with
      | .error e => .error e
      | .ok ptrs =>
        .ok ([], interiorChildren page_data ptrs ++
          (match header.right_child with
           | some rc => [rc]
           | none => []))
    | _ => .ok ([], [])

/-! ### Duplicate detection and validators
(`src/validator/duplicate.rs`, `src/validators/*`, `src/lib.rs`) -/

/-- A key or rowid that occurs at several locations. -/
structure DuplicateEntry (K : Type) where
  key : K
  locations : List RowidLocation
  deriving DecidableEq

/-- `find_duplicates`: group the entries by key and keep the groups with
more than one location.  The Rust implementation groups via a `HashMap`
whose iteration order is unspecified; here groups are listed in order of
each key's first occurrence, and each group's locations preserve insertion
order exactly as `entry.or_default().push(location)` does. -/
def find_duplicates {K : Type} [DecidableEq K]
    (entries : List (K × RowidLocation)) : List (DuplicateEntry K) :=
  ((entries.map Prod.fst).dedup).filterMap (fun k =>
    let locations := (entries.filter (fun e => e.1 = k)).map Prod.snd
    if 1 < locations.length then some ⟨k, locations⟩ else none)

/-- Catalog information about one B-tree (`BTreeInfo`). -/
structure BTreeInfo where
  root_page : Nat
  name : Option String
  tbl_name : Option String
  sql : Option String
  is_table : Bool
  is_unique : Bool
  deriving DecidableEq

/-- The fields of a `ValidationIssue` produced by
`ValidationIssue::duplicate_index_keys`. -/
structure ValidationIssue where
  validator_name : String
  index_name : Option String
  root_page : Nat
  commit_index : Option Nat
  key_duplicates : List (DuplicateEntry IndexKey)
  deriving DecidableEq

/-- The loop body of `DuplicateIndexKeyValidator::validate`: tables are
skipped (`continue`), non-unique indexes are skipped (`continue`), and a
unique index contributes an issue exactly when `find_duplicates` over its
collected keys is non-empty. -/
def dupIndexKeyStep (keysOf : Nat → List (IndexKey × RowidLocation))
    (commit_index : Option Nat) (issues : List ValidationIssue) (b : BTreeInfo) :
    List ValidationIssue :=
  if b.is_table then issues
  else if !b.is_unique then issues
  else
    let duplicates := find_duplicates (keysOf b.root_page)
    if !duplicates.isEmpty then
      issues ++ [⟨"duplicate-index-key", b.name, b.root_page, commit_index, duplicates⟩]
    else issues

/-- `DuplicateIndexKeyValidator::validate`, with the scanner's
`collect_index_keys` abstracted as the oracle `keysOf` from root page to
collected keys. -/
def dupIndexKeyValidate (btrees : List BTreeInfo)
    (keysOf : Nat → List (IndexKey × RowidLocation)) (commit_index : Option Nat) :
    List ValidationIssue :=
  btrees.foldl (dupIndexKeyStep keysOf commit_index) []

/-- `DuplicateType` from `src/validator/duplicate.rs`. -/
inductive DuplicateType where
  | tableRowid
  | indexKey
  deriving DecidableEq

/-- `DuplicateReport` from `src/validator/duplicate.rs`. -/
structure DuplicateReport where
  commit_index : Option Nat
  btree_root : Nat
  name : Option String
  duplicate_type : DuplicateType
  rowid_duplicates : List (DuplicateEntry Int)
  key_duplicates : List (DuplicateEntry IndexKey)
  deriving DecidableEq

/-- `DuplicateReport::has_duplicates`. -/
def DuplicateReport.has_duplicates (r : DuplicateReport) : Bool :=
  !r.rowid_duplicates.isEmpty || !r.key_duplicates.isEmpty

/-- `scan_table_for_duplicates` from `src/lib.rs`, with the scanner's
`collect_table_rowids` abstracted as the oracle `rowidsOf`. -/
def scan_table_for_duplicates (rowidsOf : Nat → List (Int × RowidLocation))
    (b : BTreeInfo) (commit_index : Option Nat) : DuplicateReport :=
  ⟨commit_index, b.root_page, b.name, .tableRowid,
    find_duplicates (rowidsOf b.root_page), []⟩

/-- `scan_index_for_duplicates` from `src/lib.rs`: runs on any index
B-tree it is given, with no `is_unique` test. -/
def scan_index_for_duplicates (keysOf : Nat → List (IndexKey × RowidLocation))
    (b : BTreeInfo) (commit_index : Option Nat) : DuplicateReport :=
  ⟨commit_index, b.root_page, b.name, .indexKey, [],
    find_duplicates (keysOf b.root_page)⟩

/-- The per-state validation loop of `lib.rs::validate` (run once for the
base state and once after each commit): every table B-tree is scanned for
duplicate rowids and every index B-tree — unique or not — for duplicate
keys; reports with duplicates are kept. -/
def validatePass (btrees : List BTreeInfo)
    (rowidsOf : Nat → List (Int × RowidLocation))
    (keysOf : Nat → List (IndexKey × RowidLocation))
    (commit_index : Option Nat) : List DuplicateReport :=
  btrees.foldl (fun reports b =>
    let report :=
      if b.is_table then scan_table_for_duplicates rowidsOf b commit_index
      else scan_index_for_duplicates keysOf b commit_index
    if report.has_duplicates then reports ++ [report] else reports) []

/-! ### Concrete inputs used by witnesses and counterexamples -/

/-- A 32-byte WAL header image: valid big-endian magic, page size 8, all
other fields (salts, stored checksums) zero. -/
def hdrBytesW : List Nat :=
  [0x37, 0x7f, 0x06, 0x82] ++ [0, 0, 0, 0] ++ [0, 0, 0, 8] ++ List.replicate 20 0

/-- The parse of `hdrBytesW`. -/
def walHeaderW : WalHeader :=
  ⟨WAL_MAGIC_BE, 0, 8, 0, 0, 0, 0, 0, true⟩

/-- A WAL whose single frame (page 1, commit, salts 0) stores checksum
words `(0, 0)`, which do not match the rolling checksum. -/
def walBadCks : WalFile :=
  ⟨walHeaderW, hdrBytesW ++ [0, 0, 0, 1, 0, 0, 0, 1] ++ List.replicate 16 0 ++
    List.replicate 8 0⟩

/-- A WAL with no frame region at all (header only). -/
def walEmptyW : WalFile :=
  ⟨walHeaderW, hdrBytesW⟩

/-- The iterator state right after `CommitIterator::new`. -/
def stateW : IterState :=
  ⟨0, 0, [], (0, 0), false⟩

/-- A pending (non-commit) frame for the truncation witness. -/
def pendingFrameW : Frame :=
  ⟨⟨1, 0, 0, 0, 0, 0⟩, List.replicate 8 0, 0⟩

/-- A state with one pending frame, positioned past the end of
`walEmptyW`. -/
def statePendingW : IterState :=
  ⟨1, 0, [pendingFrameW], (0, 0), false⟩

/-- A base-file reader with no pages (every page is `PageNotFound`). -/
def readerW : Nat → Except Err (List Nat) :=
  fun n => .error (.pageNotFound n)

/-- First version of page 1 (frame index 0). -/
def frameA : Frame :=
  ⟨⟨1, 0, 0, 0, 0, 0⟩, [10, 11], 0⟩

/-- Second version of page 1 (frame index 1). -/
def frameB : Frame :=
  ⟨⟨1, 1, 0, 0, 0, 0⟩, [20, 21], 1⟩

/-- Two single-frame commits touching the same page. -/
def commitsW : List Commit :=
  [⟨0, [frameA], 1⟩, ⟨1, [frameB], 1⟩]

/-- A 32-byte WAL header image with valid magic whose stored checksum
words `(0, 0)` differ from the checksum of its first 24 bytes. -/
def c3bytes : List Nat :=
  [0x37, 0x7f, 0x06, 0x82] ++ List.replicate 28 0

/-- An index-cell payload whose record header holds exactly one serial
type (type 1, one data byte `171`). -/
def oneColPayload : List Nat :=
  [2, 1, 171]

/-- A table-leaf page of 10 bytes whose single cell pointer is `0xFFFF`,
far outside the page. -/
def page9 : List Nat :=
  [0x0D, 0, 0, 0, 1, 0, 0, 0, 0xFF, 0xFF]

/-- A non-unique index whose B-tree is rooted at page 2. -/
def idxBtreeW : BTreeInfo :=
  ⟨2, some ("idx"), some ("t"), some ("CREATE INDEX idx ON t(v)"), false, false⟩

/-- A key oracle returning the same key twice for every root page. -/
def keysOfW : Nat → List (IndexKey × RowidLocation) :=
  fun _ => [(⟨[42]⟩, ⟨3, 0, none⟩), (⟨[42]⟩, ⟨3, 1, none⟩)]

/-- A rowid oracle returning nothing. -/
def rowidsOfW : Nat → List (Int × RowidLocation) :=
  fun _ => []

/-! ## Helper lemmas -/

theorem lor_shiftLeft_add (k : ℕ) : ∀ r z : ℕ, r < 2 ^ k → (z <<< k) ||| r = z * 2 ^ k + r := by
  induction k with
  | zero =>
    intro r z h
    interval_cases r
    simp [Nat.shiftLeft_eq]
  | succ k ih =>
    intro r z h
    have hp : 2 ^ (k + 1) = 2 ^ k * 2 := by ring
    have hr2 : r / 2 < 2 ^ k := by omega
    have hz : z <<< (k + 1) = Nat.bit false (z <<< k) := by
      simp [Nat.bit_val, Nat.shiftLeft_eq, Nat.pow_succ]
      ring
    have hrb : r = Nat.bit (decide (r % 2 = 1)) (r / 2) := by
      rcases Nat.mod_two_eq_zero_or_one r with h2 | h2 <;> simp [Nat.bit_val, h2] <;> omega
    rw [hz]
    conv_lhs => rw [hrb]
    rw [Nat.lor_bit]
    simp only [Bool.false_or, Nat.bit_val]
    rw [ih (r / 2) z hr2]
    have hdm := Nat.div_add_mod r 2
    have hzz : z * 2 ^ (k + 1) = 2 * (z * 2 ^ k) := by ring
    rcases Nat.mod_two_eq_zero_or_one r with h2 | h2 <;>
      simp only [h2] <;> norm_num <;> omega

theorem and127_eq_mod (b : ℕ) : b &&& 127 = b % 128 := by
  have h := Nat.and_pow_two_sub_one_eq_mod b 7
  norm_num at h
  exact h

set_option maxRecDepth 4000 in
theorem and128_eq_zero_iff : ∀ b < 256, ((b &&& 128 = 0) ↔ b < 128) := by decide

/-- The `parse_varint` loop computes exactly the value and byte count the
specification describes (`specVarint`), offset by the bytes already
consumed; in particular no 64-bit wrap-around ever occurs. -/
theorem pvGo_eq_specVarint : ∀ (data : List Nat) (i acc : Nat),
    (∀ b ∈ data, b < 256) → i ≤ 8 → acc < 2 ^ (7 * i) →
    pvGo data i acc = ((specVarint data i acc).1, i + (specVarint data i acc).2) := by
  intro data
  induction data with
  | nil => intro i acc _ _ _; simp [pvGo, specVarint]
  | cons b rest ih =>
    intro i acc hb hi hacc
    have hb0 : b < 256 := hb b (by simp)
    by_cases h8 : i = 8
    · subst h8
      have hlt : acc * 2 ^ 8 + b < 2 ^ 64 := by
        norm_num at hacc ⊢
        omega
      have he : ((acc <<< 8) ||| b) % 2 ^ 64 = acc * 2 ^ 8 + b := by
        rw [lor_shiftLeft_add 8 b acc (lt_of_lt_of_le hb0 (by norm_num : (256 : ℕ) ≤ 2 ^ 8)),
          Nat.mod_eq_of_lt hlt]
      show (((acc <<< 8) ||| b) % 2 ^ 64, (9 : ℕ)) = (acc * 2 ^ 8 + b, 9)
      rw [he]
    · have hi7 : i ≤ 7 := by omega
      have hm : b &&& 127 = b % 128 := and127_eq_mod b
      have hmlt : b % 128 < 2 ^ 7 := by
        have h7 : (2 : ℕ) ^ 7 = 128 := by norm_num
        rw [h7]
        omega
      have hvlt : acc * 2 ^ 7 + b % 128 < 2 ^ (7 * (i + 1)) := by
        have h1 : acc * 2 ^ 7 + b % 128 < (acc + 1) * 2 ^ 7 := by
          norm_num
          omega
        have h2 : (acc + 1) * 2 ^ 7 ≤ 2 ^ (7 * i) * 2 ^ 7 :=
          mul_le_mul_right' (Nat.succ_le_of_lt hacc) _
        have h3 : 2 ^ (7 * (i + 1)) = 2 ^ (7 * i) * 2 ^ 7 := by
          rw [Nat.mul_succ, pow_add]
        omega
      have hv64 : acc * 2 ^ 7 + b % 128 < 2 ^ 64 := by
        have h4 : (7 : ℕ) * (i + 1) ≤ 56 := by omega
        have h5 : (2 : ℕ) ^ (7 * (i + 1)) ≤ 2 ^ 56 := Nat.pow_le_pow_right (by norm_num) h4
        have h6 : (2 : ℕ) ^ 56 < 2 ^ 64 := by norm_num
        omega
      have hvv : ((acc <<< 7) ||| (b &&& 127)) % 2 ^ 64 = acc * 2 ^ 7 + b % 128 := by
        rw [hm, lor_shiftLeft_add 7 (b % 128) acc hmlt, Nat.mod_eq_of_lt hv64]
      by_cases hbit : b &&& 128 = 0
      · have hblt : b < 128 := (and128_eq_zero_iff b hb0).mp hbit
        have hmod : b % 128 = b := Nat.mod_eq_of_lt hblt
        simp only [pvGo, specVarint, if_neg h8, if_pos hbit, if_pos hblt, hvv, hmod]
      · have hbge : ¬ b < 128 := fun hc => hbit ((and128_eq_zero_iff b hb0).mpr hc)
        have hmod : b % 128 = b - 128 := by omega
        have hrec := ih (i + 1) (acc * 2 ^ 7 + (b - 128))
          (fun x hx => hb x (by simp [hx])) (by omega) (by rw [← hmod]; exact hvlt)
        have hvv2 : ((acc <<< 7) ||| (b &&& 127)) % 2 ^ 64 = acc * 2 ^ 7 + (b - 128) := by
          rw [hvv, hmod]
        simp only [pvGo, specVarint, if_neg h8, if_neg hbit, if_neg hbge, hvv2, hrec]
        have hsum : i + 1 + (specVarint rest (i + 1) (acc * 2 ^ 7 + (b - 128))).2 =
            i + ((specVarint rest (i + 1) (acc * 2 ^ 7 + (b - 128))).2 + 1) := by omega
        rw [hsum]

/-- Bounds on the byte count consumed by `specVarint`. -/
theorem specVarint_len : ∀ (data : List Nat) (i acc : Nat), i ≤ 8 →
    (specVarint data i acc).2 ≤ data.length ∧
    (data ≠ [] → 1 ≤ (specVarint data i acc).2) ∧
    (specVarint data i acc).2 ≤ 9 - i := by
  intro data
  induction data with
  | nil => intro i acc _; simp [specVarint]
  | cons b rest ih =>
    intro i acc hi
    by_cases h8 : i = 8
    · subst h8
      simp [specVarint]
    · by_cases hblt : b < 128
      · simp only [specVarint, if_neg h8, if_pos hblt]
        refine ⟨by simp, fun _ => le_refl 1, by omega⟩
      · have hrec := ih (i + 1) (acc * 2 ^ 7 + (b - 128)) (by omega)
        obtain ⟨ha, _, hc⟩ := hrec
        simp only [specVarint, if_neg h8, if_neg hblt, List.length_cons]
        exact ⟨by omega, fun _ => by omega, by omega⟩

/-- C8: `parse_varint` fails with `UnexpectedEof` exactly on empty input;
on non-empty byte input it returns `Ok (value, bytes_read)` where
`(value, bytes_read)` is exactly the specification's decoding
(`specVarint`: bytes 1..8 contribute their low 7 bits with the
accumulator shifted left by 7, decoding stops at the first byte with the
high bit clear, and a 9th byte contributes all 8 bits and terminates),
with `bytes_read` between 1 and 9 and within the input length. -/
theorem c8_parse_varint (data : List Nat) (hb : ∀ b ∈ data, b < 256) :
    (data = [] → parse_varint data = .error .unexpectedEof) ∧
    (data ≠ [] →
      parse_varint data = .ok ((specVarint data 0 0).1, (specVarint data 0 0).2) ∧
      1 ≤ (specVarint data 0 0).2 ∧ (specVarint data 0 0).2 ≤ 9 ∧
      (specVarint data 0 0).2 ≤ data.length) := by
  constructor
  · intro h
    subst h
    rfl
  · intro hne
    have hlen := specVarint_len data 0 0 (by omega)
    refine ⟨?_, hlen.2.1 hne, by omega, hlen.1⟩
    have hemp : data.isEmpty = false := by
      cases data with
      | nil => exact absurd rfl hne
      | cons x xs => rfl
    have hgo := pvGo_eq_specVarint data 0 0 hb (by omega) (by norm_num)
    rw [parse_varint, hemp]
    simp only [Bool.false_eq_true, if_false, hgo, Nat.zero_add]

/-- Witness for C8 at the two-byte varint `[0x81, 0x05]` (value 133). -/
theorem c8_parse_varint_witness :
    (∀ b ∈ [129, 5], b < 256) ∧ ([129, 5] : List Nat) ≠ [] ∧
    parse_varint [129, 5] = .ok (133, 2) := by
  have h := ((c8_parse_varint [129, 5] (by decide)).2 (by decide)).1
  refine ⟨by decide, by decide, ?_⟩
  rw [h]
  rfl

/-- C4 (code bug): serial type 3 — a 24-bit signed integer per the spec
and the code's own comments — is decoded without sign extension: the
3-byte value `0x800000` decodes to `+8388608` where the sign-extended
`i24` reading is `-8388608`.  Serial type 5 (48-bit) is also wrong: the
six bytes `[0,0,0,0,0,1]` decode to `0` instead of `1`, because the code
copies the payload into the low bytes of the buffer before shifting right
by 16.  The remaining widths 1, 2, 4, 8 and the constants 8 and 9 do
sign-extend as claimed (checked here at sample inputs). -/
theorem c4_read_int_column_eval :
    read_int_column [128, 0, 0] [3] [0] 0 = some 8388608 ∧
    signExtendedValue 3 [128, 0, 0] = some (-8388608) ∧
    read_int_column [0, 0, 0, 0, 0, 1] [5] [0] 0 = some 0 ∧
    signExtendedValue 5 [0, 0, 0, 0, 0, 1] = some 1 ∧
    read_int_column [255] [1] [0] 0 = some (-1) ∧
    signExtendedValue 1 [255] = some (-1) ∧
    read_int_column [255, 254] [2] [0] 0 = some (-2) ∧
    signExtendedValue 2 [255, 254] = some (-2) ∧
    read_int_column [255, 255, 255, 255] [4] [0] 0 = some (-1) ∧
    signExtendedValue 4 [255, 255, 255, 255] = some (-1) ∧
    read_int_column [255, 255, 255, 255, 255, 255, 255, 255] [6] [0] 0 = some (-1) ∧
    signExtendedValue 6 [255, 255, 255, 255, 255, 255, 255, 255] = some (-1) ∧
    read_int_column [] [8] [0] 0 = some 0 ∧
    read_int_column [] [9] [0] 0 = some 1 := by
  decide

/-- C5 counterexample: a payload whose record header holds exactly one
serial type (`n = 1`, type 1 with one data byte).  The claim says the key
is then the header alone (`[2, 1]`), but `extract_index_key` returns the
header plus the single column's data byte. -/
theorem c5_counterexample :
    extract_index_key oneColPayload = .ok ⟨[2, 1, 171]⟩ ∧
    (⟨[2, 1, 171]⟩ : IndexKey) ≠ ⟨[2, 1]⟩ := by
  decide

/-- C5 amended: when the record header parses to serial types `sts` with
header size `hsz`, the index key is `payload[0 .. hsz + S]` where `S`
sums the serial-type sizes of all columns except the last if there are at
least two columns, and of **all** columns when there is exactly one (the
single column is included, not dropped); the slice further requires
`hsz + S ≤ payload.length` (otherwise `UnexpectedEof`). -/
theorem c5_extract_index_key_amended (payload sts : List Nat) (hsz : Nat)
    (h : parse_record_header payload = .ok (sts, hsz)) (hne : sts ≠ [])
    (hle : hsz + ((if 1 < sts.length then sts.dropLast else sts).map serial_type_size).sum ≤
      payload.length) :
    extract_index_key payload =
      .ok ⟨payload.take
        (hsz + ((if 1 < sts.length then sts.dropLast else sts).map serial_type_size).sum)⟩ := by
  have hemp : sts.isEmpty = false := by
    cases sts with
    | nil => exact absurd rfl hne
    | cons x xs => rfl
  simp only [extract_index_key, h, hemp, Bool.false_eq_true, if_false]
  rw [if_neg (by omega)]

/-- Witness for C5's amended claim at a two-column payload. -/
theorem c5_amended_witness :
    parse_record_header [3, 1, 1, 170, 187] = .ok ([1, 1], 3) ∧
    ([1, 1] : List Nat) ≠ [] ∧
    extract_index_key [3, 1, 1, 170, 187] = .ok ⟨[3, 1, 1, 170]⟩ := by
  have h := c5_extract_index_key_amended [3, 1, 1, 170, 187] [1, 1] 3
    (by decide) (by decide) (by decide)
  refine ⟨by decide, by decide, ?_⟩
  rw [h]
  rfl

/-- C3 counterexample: a 32-byte input with a valid magic word whose
stored checksum words `(0, 0)` differ from the checksum of bytes
`[0, 24)` computed with seed `(0, 0)`; `WalHeader::parse` succeeds
anyway, so parsing does not enforce the checksum invariant. -/
theorem c3_counterexample :
    WalHeader.parse c3bytes = .ok ⟨WAL_MAGIC_BE, 0, 0, 0, 0, 0, 0, 0, true⟩ ∧
    walChecksum true (0, 0) (c3bytes.take 24) ≠
      (readU32BE c3bytes 24, readU32BE c3bytes 28) := by
  decide

/-- C3 amended: `WalHeader::parse` returns a header exactly when the
input holds at least 32 bytes and the magic word is one of the two known
values; the stored checksum words are read into the header but are not
verified against the computed checksum. -/
theorem c3_walheader_parse_amended (data : List Nat) :
    (∃ h, WalHeader.parse data = .ok h) ↔
      (32 ≤ data.length ∧
        (readU32BE data 0 = WAL_MAGIC_BE ∨ readU32BE data 0 = WAL_MAGIC_LE)) := by
  unfold WalHeader.parse
  by_cases hlen : data.length < 32
  · simp [hlen]
  · simp only [if_neg hlen]
    by_cases hm : readU32BE data 0 = WAL_MAGIC_BE ∨ readU32BE data 0 = WAL_MAGIC_LE
    · simp [hm]
      omega
    · simp [hm]

/-- A btree that is a table, or an index that is not unique, contributes
nothing in `DuplicateIndexKeyValidator::validate`. -/
theorem dupIndexKeyStep_skip (keysOf : Nat → List (IndexKey × RowidLocation))
    (ci : Option Nat) (issues : List ValidationIssue) (b : BTreeInfo)
    (h : (!b.is_table && b.is_unique) = false) :
    dupIndexKeyStep keysOf ci issues b = issues := by
  unfold dupIndexKeyStep
  cases ht : b.is_table <;> cases hu : b.is_unique <;>
    simp [ht, hu] at h ⊢

/-- Folding the validator's loop body over a btree list only ever looks
at the unique non-table entries. -/
theorem dupIndexKeyStep_foldl_filter (keysOf : Nat → List (IndexKey × RowidLocation))
    (ci : Option Nat) :
    ∀ (l : List BTreeInfo) (acc : List ValidationIssue),
      l.foldl (dupIndexKeyStep keysOf ci) acc =
        (l.filter (fun b => !b.is_table && b.is_unique)).foldl (dupIndexKeyStep keysOf ci) acc := by
  intro l
  induction l with
  | nil => intro acc; rfl
  | cons b rest ih =>
    intro acc
    by_cases hp : (!b.is_table && b.is_unique) = true
    · have hfil : List.filter (fun b => !b.is_table && b.is_unique) (b :: rest) =
          b :: List.filter (fun b => !b.is_table && b.is_unique) rest := by
        simp [List.filter_cons, hp]
      rw [List.foldl_cons, hfil, List.foldl_cons, ih]
    · have hf : (!b.is_table && b.is_unique) = false := by
        revert hp
        cases (!b.is_table && b.is_unique) <;> simp
      have hfil : List.filter (fun b => !b.is_table && b.is_unique) (b :: rest) =
          List.filter (fun b => !b.is_table && b.is_unique) rest := by
        simp [List.filter_cons, hf]
      rw [List.foldl_cons, dupIndexKeyStep_skip keysOf ci acc b hf, hfil, ih]

/-- C6 counterexample: the driver `lib.rs::validate` runs the
duplicate-key scan on a non-unique index and emits a duplicate report for
it, contradicting the claim that the validation pass emits no
duplicate-key issue for indexes with `is_unique` false. -/
theorem c6_counterexample :
    idxBtreeW.is_unique = false ∧
    (validatePass [idxBtreeW] rowidsOfW keysOfW (some 0)).map
      (fun r => (r.btree_root, r.key_duplicates.length)) = [(2, 1)] := by
  decide

/-- C6 amended: the validator `DuplicateIndexKeyValidator::validate`
does run only over unique index B-trees — its issue list is unchanged
when every table and every non-unique index is removed from the btree
list — but the driver `lib.rs::validate` scans every index B-tree for
duplicate keys regardless of `is_unique` (see the counterexample). -/
theorem c6_dup_index_key_unique_only (btrees : List BTreeInfo)
    (keysOf : Nat → List (IndexKey × RowidLocation)) (ci : Option Nat) :
    dupIndexKeyValidate btrees keysOf ci =
      dupIndexKeyValidate (btrees.filter (fun b => !b.is_table && b.is_unique)) keysOf ci :=
  dupIndexKeyStep_foldl_filter keysOf ci btrees []

/-- When the whole cell-pointer array fits in the page, `gcpLoop`
succeeds with one pointer per slot. -/
theorem gcpLoop_ok (data : List Nat) (start pn : Nat) :
    ∀ (remaining i : Nat), start + (i + remaining) * 2 ≤ data.length →
      ∃ ps, gcpLoop data start pn i remaining = .ok ps ∧ ps.length = remaining := by
  intro remaining
  induction remaining with
  | zero => intro i _; exact ⟨[], rfl, rfl⟩
  | succ r ih =>
    intro i hle
    have hd : (i + (r + 1)) * 2 = i * 2 + r * 2 + 2 := by ring
    have hguard : ¬ data.length < start + i * 2 + 2 := by omega
    obtain ⟨ps, hps, hlen⟩ := ih (i + 1) (by
      have : (i + 1 + r) * 2 = (i + (r + 1)) * 2 := by ring
      omega)
    refine ⟨readU16BE data (start + i * 2) :: ps, ?_, by simp [hlen]⟩
    simp only [gcpLoop, if_neg hguard, hps]

/-- When the cell-pointer array sticks out past the end of the page,
`gcpLoop` fails with `CellPointerOutOfBounds`. -/
theorem gcpLoop_err (data : List Nat) (start pn : Nat) :
    ∀ (remaining i : Nat), 0 < remaining →
      data.length < start + (i + remaining) * 2 →
      gcpLoop data start pn i remaining = .error (.cellPointerOutOfBounds pn) := by
  intro remaining
  induction remaining with
  | zero => intro i h; omega
  | succ r ih =>
    intro i _ hlt
    have hd : (i + (r + 1)) * 2 = i * 2 + 2 + r * 2 := by ring
    by_cases hguard : data.length < start + i * 2 + 2
    · simp [gcpLoop, hguard]
    · have hr : 0 < r := by omega
      have hrec := ih (i + 1) hr (by
        have : (i + 1 + r) * 2 = (i + (r + 1)) * 2 := by ring
        omega)
      simp only [gcpLoop, if_neg hguard, hrec]

/-- The table-leaf loop skips every out-of-bounds cell pointer. -/
theorem tableLeafCells_oob (data : List Nat) (pn : Nat) (fi : Option Nat) :
    ∀ (ptrs : List Nat) (idx : Nat), (∀ p ∈ ptrs, data.length ≤ p) →
      tableLeafCells data pn fi ptrs idx = .ok [] := by
  intro ptrs
  induction ptrs with
  | nil => intro idx _; rfl
  | cons p rest ih =>
    intro idx hp
    have h1 : data.length ≤ p := hp p (by simp)
    simp only [tableLeafCells, if_pos h1]
    exact ih (idx + 1) (fun q hq => hp q (by simp [hq]))

/-- The index-leaf loop skips every out-of-bounds cell pointer. -/
theorem indexLeafCells_oob (data : List Nat) (pn : Nat) (fi : Option Nat) :
    ∀ (ptrs : List Nat) (idx : Nat), (∀ p ∈ ptrs, data.length ≤ p) →
      indexLeafCells data pn fi ptrs idx = .ok [] := by
  intro ptrs
  induction ptrs with
  | nil => intro idx _; rfl
  | cons p rest ih =>
    intro idx hp
    have h1 : data.length ≤ p := hp p (by simp)
    simp only [indexLeafCells, if_pos h1]
    exact ih (idx + 1) (fun q hq => hp q (by simp [hq]))

/-- The interior-page loop skips every out-of-bounds cell pointer. -/
theorem interiorChildren_oob (data : List Nat) :
    ∀ ptrs : List Nat, (∀ p ∈ ptrs, data.length ≤ p) →
      interiorChildren data ptrs = [] := by
  intro ptrs
  induction ptrs with
  | nil => intro _; rfl
  | cons p rest ih =>
    intro hp
    have h1 : data.length ≤ p := hp p (by simp)
    have hguard : data.length < p + 4 := by omega
    simp only [interiorChildren, if_pos hguard]
    exact ih (fun q hq => hp q (by simp [hq]))

/-- C9 counterexample: a well-formed table-leaf page whose single cell
pointer (0xFFFF) lies far outside the 10-byte page.  Scanning the page
silently skips the cell and succeeds with no rowids — it does not produce
`CellPointerOutOfBounds`. -/
theorem c9_counterexample :
    BTreePageHeader.parse page9 2 = .ok (⟨.tableLeaf, 0, 1, 0, 0, none⟩, 8) ∧
    BTreePageHeader.get_cell_pointers ⟨.tableLeaf, 0, 1, 0, 0, none⟩ page9 2 = .ok [65535] ∧
    page9.length ≤ 65535 ∧
    tableScanStep page9 2 none = .ok ([], []) := by
  decide

/-- C9 amended: `CellPointerOutOfBounds` is produced only when the cell
pointer **array** extends past the end of the page (`get_cell_pointers`);
a cell pointer whose **value** lies outside the page is silently skipped
by the table-leaf, index-leaf and interior-page cell loops rather than
producing an error. -/
theorem c9_cell_pointer_bounds_amended (data : List Nat) (h : BTreePageHeader)
    (page_num : Nat) (fi : Option Nat) (ptrs : List Nat) :
    (0 < h.cell_count ∧
      data.length < (if page_num = 1 then 100 else 0) +
        (if h.page_type.is_interior then 12 else 8) + h.cell_count * 2 →
      h.get_cell_pointers data page_num = .error (.cellPointerOutOfBounds page_num)) ∧
    ((if page_num = 1 then 100 else 0) + (if h.page_type.is_interior then 12 else 8) +
        h.cell_count * 2 ≤ data.length →
      ∃ ps, h.get_cell_pointers data page_num = .ok ps ∧ ps.length = h.cell_count) ∧
    ((∀ p ∈ ptrs, data.length ≤ p) →
      ∀ idx, tableLeafCells data page_num fi ptrs idx = .ok [] ∧
        indexLeafCells data page_num fi ptrs idx = .ok [] ∧
        interiorChildren data ptrs = []) := by
  refine ⟨?_, ?_, ?_⟩
  · intro ⟨hc, hlt⟩
    exact gcpLoop_err data _ page_num h.cell_count 0 hc (by omega)
  · intro hle
    exact gcpLoop_ok data _ page_num h.cell_count 0 (by omega)
  · intro hp idx
    exact ⟨tableLeafCells_oob data page_num fi ptrs idx hp,
      indexLeafCells_oob data page_num fi ptrs idx hp,
      interiorChildren_oob data ptrs hp⟩

/-- Witness for C9's amended claim at concrete pages. -/
theorem c9_amended_witness :
    BTreePageHeader.get_cell_pointers ⟨.tableLeaf, 0, 1, 0, 0, none⟩ [0] 2 =
      .error (.cellPointerOutOfBounds 2) ∧
    tableLeafCells [0] 2 none [5] 0 = .ok [] ∧
    interiorChildren [0] [5] = [] := by
  have h := c9_cell_pointer_bounds_amended [0] ⟨.tableLeaf, 0, 1, 0, 0, none⟩ 2 none [5]
  exact ⟨h.1 (by decide), (h.2.2 (by decide) 0).1, (h.2.2 (by decide) 0).2.2⟩

/-- The overlay after inserting a frame list in order holds, at each page
number, the last inserted frame for that page (or the prior entry). -/
theorem foldl_applyFrame_overlay : ∀ (fs : List Frame) (pc : PageCache) (p : Nat),
    (fs.foldl applyFrame pc).overlay p =
      (match lastMatch fs p with
       | some f => some (f.page_data, f.frame_index)
       | none => pc.overlay p) := by
  intro fs
  induction fs with
  | nil => intro pc p; rfl
  | cons f rest ih =>
    intro pc p
    rw [List.foldl_cons, ih]
    cases hlm : lastMatch rest p with
    | some g => simp [lastMatch, hlm]
    | none =>
      simp only [lastMatch, hlm]
      by_cases hf : f.header.page_number = p
      · rw [if_pos hf]
        show (applyFrame pc f).overlay p = some (f.page_data, f.frame_index)
        unfold applyFrame
        simp only []
        rw [if_pos hf.symm]
      · rw [if_neg hf]
        show (applyFrame pc f).overlay p = pc.overlay p
        unfold applyFrame
        simp only []
        rw [if_neg (fun hc => hf hc.symm)]

/-- `applyFrame` leaves every field but the overlay unchanged. -/
theorem foldl_applyFrame_fields : ∀ (fs : List Frame) (pc : PageCache),
    (fs.foldl applyFrame pc).page_size = pc.page_size ∧
    (fs.foldl applyFrame pc).db_page_count = pc.db_page_count ∧
    (fs.foldl applyFrame pc).page_reader = pc.page_reader := by
  intro fs
  induction fs with
  | nil => intro pc; exact ⟨rfl, rfl, rfl⟩
  | cons f rest ih =>
    intro pc
    rw [List.foldl_cons]
    exact ih (applyFrame pc f)

/-- Applying commits in order is the same as inserting their concatenated
frames in order. -/
theorem applyCommits_eq_foldl_frames : ∀ (cs : List Commit) (pc : PageCache),
    cs.foldl PageCache.apply_commit pc = (allFrames cs).foldl applyFrame pc := by
  intro cs
  induction cs with
  | nil => intro pc; rfl
  | cons c rest ih =>
    intro pc
    have hall : allFrames (c :: rest) = c.frames ++ allFrames rest := by
      simp [allFrames]
    rw [List.foldl_cons, ih, hall, List.foldl_append]
    rfl

/-- A successful `lastMatch` returns a member frame with the requested
page number. -/
theorem lastMatch_mem : ∀ (fs : List Frame) (p : Nat) (g : Frame),
    lastMatch fs p = some g → g ∈ fs ∧ g.header.page_number = p := by
  intro fs
  induction fs with
  | nil => intro p g h; cases h
  | cons f rest ih =>
    intro p g h
    unfold lastMatch at h
    cases hlm : lastMatch rest p with
    | some g2 =>
      rw [hlm] at h
      cases h
      obtain ⟨h1, h2⟩ := ih p _ hlm
      exact ⟨List.mem_cons_of_mem f h1, h2⟩
    | none =>
      rw [hlm] at h
      by_cases hf : f.header.page_number = p
      · rw [if_pos hf] at h
        cases h
        exact ⟨by simp, hf⟩
      · rw [if_neg hf] at h
        cases h

/-- A failing `lastMatch` means no frame targets the page. -/
theorem lastMatch_none : ∀ (fs : List Frame) (p : Nat),
    lastMatch fs p = none → ∀ f ∈ fs, f.header.page_number ≠ p := by
  intro fs
  induction fs with
  | nil => intro p _ f hf; cases hf
  | cons f0 rest ih =>
    intro p h f hf
    unfold lastMatch at h
    cases hlm : lastMatch rest p with
    | some g2 => rw [hlm] at h; cases h
    | none =>
      rw [hlm] at h
      by_cases hf0 : f0.header.page_number = p
      · rw [if_pos hf0] at h; cases h
      · rcases List.mem_cons.mp hf with rfl | hmem
        · exact hf0
        · exact ih p hlm f hmem

/-- If some frame targets the page, `lastMatch` finds one. -/
theorem lastMatch_isSome : ∀ (fs : List Frame) (p : Nat) (f : Frame),
    f ∈ fs → f.header.page_number = p → ∃ g, lastMatch fs p = some g := by
  intro fs p f hmem hp
  cases hlm : lastMatch fs p with
  | some g => exact ⟨g, rfl⟩
  | none => exact absurd hp (lastMatch_none fs p hlm f hmem)

/-- Under strictly increasing frame indices, the last matching frame has
the greatest index among matching frames. -/
theorem lastMatch_max : ∀ (fs : List Frame) (p : Nat) (g : Frame),
    List.Pairwise (fun a b => a.frame_index < b.frame_index) fs →
    lastMatch fs p = some g →
    ∀ f ∈ fs, f.header.page_number = p → f.frame_index ≤ g.frame_index := by
  intro fs
  induction fs with
  | nil => intro p g _ h; cases h
  | cons f0 rest ih =>
    intro p g hpw h f hf hfp
    obtain ⟨hlt, hpw2⟩ := List.pairwise_cons.mp hpw
    unfold lastMatch at h
    cases hlm : lastMatch rest p with
    | some g2 =>
      rw [hlm] at h
      cases h
      rcases List.mem_cons.mp hf with rfl | hmem
      · exact le_of_lt (hlt _ (lastMatch_mem rest p _ hlm).1)
      · exact ih p _ hpw2 hlm f hmem hfp
    | none =>
      rw [hlm] at h
      by_cases hf0 : f0.header.page_number = p
      · rw [if_pos hf0] at h
        cases h
        rcases List.mem_cons.mp hf with rfl | hmem
        · exact le_refl _
        · exact absurd hfp (lastMatch_none rest p hlm f hmem)
      · rw [if_neg hf0] at h
        cases h

/-- Under strictly increasing frame indices, a frame is determined by its
index. -/
theorem pairwise_frame_index_inj : ∀ (fs : List Frame),
    List.Pairwise (fun a b => a.frame_index < b.frame_index) fs →
    ∀ f ∈ fs, ∀ g ∈ fs, f.frame_index = g.frame_index → f = g := by
  intro fs
  induction fs with
  | nil => intro _ f hf; cases hf
  | cons a rest ih =>
    intro hpw f hf g hg heq
    obtain ⟨hlt, hpw2⟩ := List.pairwise_cons.mp hpw
    rcases List.mem_cons.mp hf with rfl | hfm
    · rcases List.mem_cons.mp hg with rfl | hgm
      · rfl
      · exact absurd heq (Nat.ne_of_lt (hlt g hgm))
    · rcases List.mem_cons.mp hg with rfl | hgm
      · exact absurd heq.symm (Nat.ne_of_lt (hlt f hfm))
      · exact ih hpw2 f hfm g hgm heq

/-- C1: applying commits in order (with the iterator's guarantee that the
frame indices of the concatenated frames strictly increase), `get_page p`
returns the base-state page when no applied frame targets `p`, and the
page data of the highest-indexed applied frame targeting `p` otherwise —
never a mix of frame versions. -/
theorem c1_overlay_latest_writer_wins
    (page_size db_page_count : Nat) (reader : Nat → Except Err (List Nat))
    (cs : List Commit) (p : Nat)
    (hinc : (allFrames cs).Pairwise (fun a b => a.frame_index < b.frame_index)) :
    ((∀ f ∈ allFrames cs, f.header.page_number ≠ p) →
      (cs.foldl PageCache.apply_commit
        (PageCache.new page_size db_page_count reader)).get_page p =
        (PageCache.new page_size db_page_count reader).get_page p) ∧
    (∀ f ∈ allFrames cs, f.header.page_number = p →
      (∀ g ∈ allFrames cs, g.header.page_number = p → g.frame_index ≤ f.frame_index) →
      (cs.foldl PageCache.apply_commit
        (PageCache.new page_size db_page_count reader)).get_page p = .ok f.page_data) := by
  rw [applyCommits_eq_foldl_frames]
  obtain ⟨hsz, hct, hrd⟩ :=
    foldl_applyFrame_fields (allFrames cs) (PageCache.new page_size db_page_count reader)
  constructor
  · intro hnone
    have hlm : lastMatch (allFrames cs) p = none := by
      cases hlmc : lastMatch (allFrames cs) p with
      | none => rfl
      | some g =>
        obtain ⟨hmem, hpg⟩ := lastMatch_mem (allFrames cs) p g hlmc
        exact absurd hpg (hnone g hmem)
    have ho : ((allFrames cs).foldl applyFrame
        (PageCache.new page_size db_page_count reader)).overlay p = none := by
      rw [foldl_applyFrame_overlay, hlm]
      rfl
    unfold PageCache.get_page
    rw [ho, hsz, hrd]
    rfl
  · intro f hmem hpage hmax
    obtain ⟨g, hg⟩ := lastMatch_isSome (allFrames cs) p f hmem hpage
    obtain ⟨hgmem, hgpage⟩ := lastMatch_mem (allFrames cs) p g hg
    have h1 : f.frame_index ≤ g.frame_index :=
      lastMatch_max (allFrames cs) p g hinc hg f hmem hpage
    have h2 : g.frame_index ≤ f.frame_index := hmax g hgmem hgpage
    have hfg : f = g :=
      pairwise_frame_index_inj (allFrames cs) hinc f hmem g hgmem (by omega)
    have ho : ((allFrames cs).foldl applyFrame
        (PageCache.new page_size db_page_count reader)).overlay p =
        some (f.page_data, f.frame_index) := by
      rw [foldl_applyFrame_overlay, hg, hfg]
    unfold PageCache.get_page
    rw [ho]

/-- Witness for C1: two commits write page 1 (frame indices 0 and 1);
`get_page 1` returns the second frame's bytes. -/
theorem c1_witness :
    (allFrames commitsW).Pairwise (fun a b => a.frame_index < b.frame_index) ∧
    (commitsW.foldl PageCache.apply_commit (PageCache.new 2 1 readerW)).get_page 1 =
      .ok [20, 21] := by
  have hpw : (allFrames commitsW).Pairwise (fun a b => a.frame_index < b.frame_index) := by
    simp [allFrames, commitsW, List.pairwise_cons, frameA, frameB]
  refine ⟨hpw, ?_⟩
  have h := (c1_overlay_latest_writer_wins 2 1 readerW commitsW 1 hpw).2 frameB
    (by decide) (by decide) (by decide)
  exact h

/-- A successful `read_frame` advances the frame index by one. -/
theorem readFrame_some_frame_index (wal : WalFile) (s : IterState) (f : Frame)
    (s1 : IterState) (h : readFrame wal s = .ok (some (f, s1))) :
    s1.current_frame_index = s.current_frame_index + 1 := by
  simp only [readFrame] at h
  split at h
  · simp at h
  · split at h
    · simp at h
    · split at h
      · simp at h
      · split at h
        · simp at h
        · split at h
          · simp at h
          · have h1 := Option.some.inj (Except.ok.inj h)
            have h2 : s1 = { s with
                current_checksum := _,
                current_frame_index := s.current_frame_index + 1 } :=
              (Prod.mk.injEq _ _ _ _).mp h1 |>.2.symm
            rw [h2]

/-- With fuel at least `wal.bytes.length + 1`, the iterator loop always
ends by emitting a commit or by setting the `finished` flag (that is, the
fuel never runs out: every iteration consumes at least 24 bytes of
file). -/
theorem nextLoop_finishes (wal : WalFile) : ∀ (fuel : Nat) (s : IterState),
    wal.bytes.length ≤ 31 + s.current_frame_index * (24 + wal.header.page_size) + fuel * 24 →
    (nextLoop wal (fuel + 1) s).2.finished = true ∨
      ∃ c, (nextLoop wal (fuel + 1) s).1 = some (.ok c) := by
  intro fuel
  induction fuel with
  | zero =>
    intro s hle
    have hrf : readFrame wal s = .ok none := by
      unfold readFrame
      rw [if_pos (by omega)]
    left
    simp [nextLoop, hrf]
  | succ fuel ih =>
    intro s hle
    rcases hrf : readFrame wal s with e | of
    · left
      simp [nextLoop, hrf]
    · cases of with
      | none =>
        left
        simp [nextLoop, hrf]
      | some pair =>
        obtain ⟨f, s1⟩ := pair
        have hidx := readFrame_some_frame_index wal s f s1 hrf
        by_cases hc : f.header.is_commit = true
        · right
          exact ⟨⟨s1.current_commit_index, s1.pending_frames ++ [f],
            f.header.db_size_after_commit⟩, by simp [nextLoop, hrf, hc]⟩
        · have harg : wal.bytes.length ≤ 31 +
              ({ s1 with pending_frames := s1.pending_frames ++ [f] }).current_frame_index *
                (24 + wal.header.page_size) + fuel * 24 := by
            show wal.bytes.length ≤ 31 +
              s1.current_frame_index * (24 + wal.header.page_size) + fuel * 24
            rw [hidx]
            have hmul : (s.current_frame_index + 1) * (24 + wal.header.page_size) =
                s.current_frame_index * (24 + wal.header.page_size) +
                  (24 + wal.header.page_size) := by ring
            omega
          have hrec := ih { s1 with pending_frames := s1.pending_frames ++ [f] } harg
          simpa [nextLoop, hrf, hc] using hrec

/-- C10: the commit iterator is fused.  Once `next` has returned `None`
(end of WAL) or an `Err` (e.g. a checksum mismatch), the returned state
has `finished` set, and every subsequent call returns `None` with the
state unchanged — no commit is ever emitted after the iterator has
finished or failed. -/
theorem c10_iterator_fused (wal : WalFile) (s : IterState)
    (r : Option (Except Err Commit)) (s2 : IterState)
    (h : nextCommit wal s = (r, s2))
    (hre : r = none ∨ ∃ e, r = some (.error e)) :
    nextCommit wal s2 = (none, s2) := by
  by_cases hf : s.finished = true
  · unfold nextCommit at h
    rw [if_pos hf] at h
    cases h
    unfold nextCommit
    rw [if_pos hf]
  · unfold nextCommit at h
    rw [if_neg hf] at h
    have hL := nextLoop_finishes wal wal.bytes.length s (by omega)
    rw [h] at hL
    rcases hL with hfin | ⟨c, hc⟩
    · unfold nextCommit
      rw [if_pos hfin]
    · rcases hre with rfl | ⟨e, rfl⟩
      · simp at hc
      · simp at hc

/-- Witness for C10: on a header-only WAL the first call returns `None`;
the theorem then gives that the next call also returns `None`. -/
theorem c10_witness :
    nextCommit walEmptyW stateW = (none, { stateW with finished := true }) ∧
    nextCommit walEmptyW { stateW with finished := true } =
      (none, { stateW with finished := true }) := by
  have h1 : nextCommit walEmptyW stateW = (none, { stateW with finished := true }) := by
    decide
  exact ⟨h1, c10_iterator_fused walEmptyW stateW none _ h1 (Or.inl rfl)⟩

/-- C2: when a full frame is available at the current offset with
matching salts, the tentative checksum is the checksum function applied
first to the first 8 bytes of the frame header and then to the full page
data, starting from the running checksum; if it differs from the header's
stored `(checksum1, checksum2)`, `read_frame` fails with
`ChecksumMismatch` carrying that frame's index, `next` surfaces exactly
that error with the `finished` flag set, and a finished iterator yields
nothing further. -/
theorem c2_checksum_mismatch_fatal (wal : WalFile) (s : IterState) (fh : FrameHeader)
    (hfin : s.finished = false)
    (hdata : 32 + s.current_frame_index * (24 + wal.header.page_size) + 24 +
      wal.header.page_size ≤ wal.bytes.length)
    (hhdr : FrameHeader.parse ((wal.bytes.drop
      (32 + s.current_frame_index * (24 + wal.header.page_size))).take 24) = .ok fh)
    (hsalt1 : fh.salt1 = wal.header.salt1) (hsalt2 : fh.salt2 = wal.header.salt2)
    (hcks : wal.header.checksum
        ((wal.bytes.drop
          (32 + s.current_frame_index * (24 + wal.header.page_size) + 24)).take
            wal.header.page_size)
        (wal.header.checksum
          (((wal.bytes.drop
            (32 + s.current_frame_index * (24 + wal.header.page_size))).take 24).take 8)
          s.current_checksum) ≠ (fh.checksum1, fh.checksum2)) :
    readFrame wal s = .error (.checksumMismatch s.current_frame_index) ∧
    nextCommit wal s = (some (.error (.checksumMismatch s.current_frame_index)),
      { s with finished := true }) ∧
    nextCommit wal { s with finished := true } = (none, { s with finished := true }) := by
  have hrf : readFrame wal s = .error (.checksumMismatch s.current_frame_index) := by
    simp only [readFrame, hhdr]
    rw [if_neg (by omega)]
    rw [if_neg (by simp [hsalt1, hsalt2])]
    rw [if_neg (by omega)]
    rw [if_pos (by
      by_contra hcon
      push_neg at hcon
      exact hcks (Prod.ext_iff.mpr hcon))]
  refine ⟨hrf, ?_, ?_⟩
  · unfold nextCommit
    rw [if_neg (by simp [hfin])]
    simp [nextLoop, hrf]
  · unfold nextCommit
    rw [if_pos (by rfl)]

/-- Witness for C2 at a WAL whose single frame stores checksum `(0, 0)`
while the rolling checksum computes to a different pair. -/
theorem c2_witness :
    readFrame walBadCks stateW = .error (.checksumMismatch 0) ∧
    nextCommit walBadCks stateW =
      (some (.error (.checksumMismatch 0)), { stateW with finished := true }) := by
  have h := c2_checksum_mismatch_fatal walBadCks stateW ⟨1, 1, 0, 0, 0, 0⟩
    (by decide) (by decide) (by decide) (by decide) (by decide) (by decide)
  exact ⟨h.1, h.2.1⟩

/-- C7: a WAL whose next frame is truncated (header or page data) or
carries salts differing from the WAL header's salts makes the iterator
terminate cleanly: `read_frame` reports end-of-log (`Ok(None)`), `next`
returns `None` rather than an error — regardless of any pending
non-commit frames, which are never emitted — and every later call also
returns `None`. -/
theorem c7_truncation_salt_clean_stop (wal : WalFile) (s : IterState)
    (hfin : s.finished = false)
    (hend :
      wal.bytes.length < 32 + s.current_frame_index * (24 + wal.header.page_size) + 24 ∨
      (∃ fh, FrameHeader.parse ((wal.bytes.drop
          (32 + s.current_frame_index * (24 + wal.header.page_size))).take 24) = .ok fh ∧
        (fh.salt1 ≠ wal.header.salt1 ∨ fh.salt2 ≠ wal.header.salt2)) ∨
      (∃ fh, FrameHeader.parse ((wal.bytes.drop
          (32 + s.current_frame_index * (24 + wal.header.page_size))).take 24) = .ok fh ∧
        fh.salt1 = wal.header.salt1 ∧ fh.salt2 = wal.header.salt2 ∧
        wal.bytes.length < 32 + s.current_frame_index * (24 + wal.header.page_size) + 24 +
          wal.header.page_size)) :
    readFrame wal s = .ok none ∧
    nextCommit wal s = (none, { s with finished := true }) ∧
    nextCommit wal { s with finished := true } = (none, { s with finished := true }) := by
  have hrf : readFrame wal s = .ok none := by
    rcases hend with h1 | ⟨fh, hp, hor⟩ | ⟨fh, hp, hs1, hs2, hlen⟩
    · simp only [readFrame]
      rw [if_pos h1]
    · have hlen24 : ¬ (wal.bytes.length <
          32 + s.current_frame_index * (24 + wal.header.page_size) + 24) := by
        have h24 : ¬ (((wal.bytes.drop
            (32 + s.current_frame_index * (24 + wal.header.page_size))).take 24).length < 24) := by
          intro hc
          unfold FrameHeader.parse at hp
          rw [if_pos hc] at hp
          cases hp
        simp only [List.length_take, List.length_drop] at h24
        omega
      simp only [readFrame, hp]
      rw [if_neg hlen24]
      rw [if_pos hor]
    · have hlen24 : ¬ (wal.bytes.length <
          32 + s.current_frame_index * (24 + wal.header.page_size) + 24) := by
        have h24 : ¬ (((wal.bytes.drop
            (32 + s.current_frame_index * (24 + wal.header.page_size))).take 24).length < 24) := by
          intro hc
          unfold FrameHeader.parse at hp
          rw [if_pos hc] at hp
          cases hp
        simp only [List.length_take, List.length_drop] at h24
        omega
      simp only [readFrame, hp]
      rw [if_neg hlen24]
      rw [if_neg (by simp [hs1, hs2])]
      rw [if_pos (by omega)]
  refine ⟨hrf, ?_, ?_⟩
  · unfold nextCommit
    rw [if_neg (by simp [hfin])]
    simp [nextLoop, hrf]
  · unfold nextCommit
    rw [if_pos (by rfl)]

/-- Witness for C7: a header-only WAL with one pending non-commit frame
in the iterator state; `next` returns `None` and the pending frame is
never emitted. -/
theorem c7_witness :
    statePendingW.pending_frames ≠ [] ∧
    readFrame walEmptyW statePendingW = .ok none ∧
    nextCommit walEmptyW statePendingW = (none, { statePendingW with finished := true }) := by
  have h := c7_truncation_salt_clean_stop walEmptyW statePendingW (by decide)
    (Or.inl (by decide))
  exact ⟨by decide, h.1, h.2.1⟩

end WalAnalyzer
